import Mathlib

/-!
Verification of the benchmarking harness in `src/index.js` and
`src/old-version-compare.js` (js-object-cleaning-performance-compare).

Durations (fractional milliseconds) are modelled as rationals `ℚ`; memory
snapshot values (`process.memoryUsage().heapUsed` / `.rss`) as integers `ℤ`.
Nondeterministic effects are oracles: the clock is a function giving the
duration returned by the k-th `timeOne(fn)` call inside one `runBench` call,
memory is a function giving the k-th `memNow()` snapshot inside one `runBench`
call, and `Math.random()` draws are a function from the shuffle loop index to
a rational in `[0, 1)`.  `global.gc()` calls are not modelled: they take no
observable input and return nothing; their influence on memory is already
absorbed into the memory oracle.
-/

namespace Bench

/-- A `memNow()` snapshot (src/index.js lines 48-51): the `heapUsed` and
`rss` fields of `process.memoryUsage()`. -/
structure Mem where
  heapUsed : Int
  rss : Int
deriving DecidableEq, Repr

/-- Model of `median` (src/index.js lines 22-26, identical in
src/old-version-compare.js lines 19-23): sort a copy ascending
(`[...arr].sort((x, y) => x - y)`), take `mid = floor(length / 2)`; odd
length gives `a[mid]`, even length gives `(a[mid-1] + a[mid]) / 2`.
`List.insertionSort` with `≤` is the stable ascending sort, matching the
ECMAScript sort contract.  On the empty list JavaScript produces `NaN`
(out-of-range indexing yields `undefined`); the model returns the junk
value `0` there, and no theorem below evaluates `median []`. -/
def median (arr : List ℚ) : ℚ :=
  let a := List.insertionSort (fun x y : ℚ => x ≤ y) arr
  let mid := a.length / 2
  if a.length % 2 = 1 then a.getD mid 0
  else (a.getD (mid - 1) 0 + a.getD mid 0) / 2

/-- Model of `Math.min(...samples)` (src/index.js line 92) for the non-empty
lists it is applied to.  JavaScript yields `Infinity` on the empty spread;
the model returns the junk value `0` there. -/
def minList : List ℚ → ℚ
  | [] => 0
  | x :: xs => xs.foldl min x

/-- Model of `Math.max(...samples)` (src/index.js line 93); junk value `0`
on the empty list (JavaScript yields `-Infinity`). -/
def maxList : List ℚ → ℚ
  | [] => 0
  | x :: xs => xs.foldl max x

/-- Model of `samples.reduce((a, b) => a + b, 0) / samples.length`
(src/index.js lines 94-95).  On the empty list JavaScript computes `0 / 0 =
NaN`; in `ℚ` division by zero returns `0`, again a junk value that no
theorem below relies on. -/
def meanList (l : List ℚ) : ℚ :=
  l.sum / (l.length : ℚ)

/-- The record returned by `runBench` in src/index.js lines 101-112
(the `name` string field is omitted: it is threaded through unchanged and
no claim mentions it). -/
structure Result where
  samples : List ℚ
  min : ℚ
  median : ℚ
  mean : ℚ
  max : ℚ
  peakHeap : Int
  avgHeapDelta : ℚ
  peakRSS : Int
deriving DecidableEq, Repr

/-- Snapshot index bookkeeping for `runBench` (src/index.js lines 59-113):
`memNow()` is called in this order: once for `let peakHeap = memNow().heapUsed`
(index 0), once for `let peakRSS = memNow().rss` (index 1), then in iteration
`i` once for `pre` (index `2 + 2*i`) and once for `post` (index `3 + 2*i`).
`preHeap`/`postHeap`/`postRss` read those snapshots. -/
def preHeap (mem : Nat → Mem) (i : Nat) : Int :=
  (mem (2 + 2 * i)).heapUsed

/-- The `post.heapUsed` value of measured iteration `i` (src/index.js line 79). -/
def postHeap (mem : Nat → Mem) (i : Nat) : Int :=
  (mem (3 + 2 * i)).heapUsed

/-- The `post.rss` value of measured iteration `i` (src/index.js line 79). -/
def postRss (mem : Nat → Mem) (i : Nat) : Int :=
  (mem (3 + 2 * i)).rss

/-- The list of "after" heap snapshots across the measured iterations. -/
def afterHeaps (mem : Nat → Mem) (iters : Nat) : List Int :=
  (List.range iters).map (postHeap mem)

/-- The list of "after" RSS snapshots across the measured iterations. -/
def afterRsss (mem : Nat → Mem) (iters : Nat) : List Int :=
  (List.range iters).map (postRss mem)

/-- The `heapDeltas` array (src/index.js lines 82-83):
`heapDeltas[i] = Math.max(0, post.heapUsed - pre.heapUsed)`. -/
def heapDeltas (mem : Nat → Mem) (iters : Nat) : List Int :=
  (List.range iters).map (fun i => max 0 (postHeap mem i - preHeap mem i))

/-- Model of `runBench(name, fn, iters, warmup)` (src/index.js lines 59-113).
The clock oracle `time k` is the duration returned by the k-th `timeOne(fn)`
call of this `runBench` call: warmup calls consume indices `0 .. warmup-1`
(line 61, results discarded), measured iteration `i` consumes index
`warmup + i` into `samples[i]` (line 76).  `peakHeap` starts from the
snapshot at index 0 taken before the measured loop (line 68) and is the
running maximum with each iteration's `post.heapUsed` (line 84); `peakRSS`
likewise starts from the snapshot at index 1 (lines 69, 85).  The loop's
four accumulators are independent, so each is written as its own
map/fold over `List.range iters`. -/
def runBench (time : Nat → ℚ) (mem : Nat → Mem) (warmup iters : Nat) : Result :=
  let samples := (List.range iters).map (fun i => time (warmup + i))
  let deltas := heapDeltas mem iters
  ⟨samples,
   minList samples,
   median samples,
   meanList samples,
   maxList samples,
   (afterHeaps mem iters).foldl max (mem 0).heapUsed,
   ((deltas.map (Int.cast : Int → ℚ)).sum) / (deltas.length : ℚ),
   (afterRsss mem iters).foldl max (mem 1).rss⟩

/-- The record returned by `runBench` in src/old-version-compare.js
lines 35-53 (again dropping the constant `label` string). -/
structure ResultOld where
  samples : List ℚ
  min : ℚ
  median : ℚ
  mean : ℚ
  max : ℚ
deriving DecidableEq, Repr

/-- Model of `runBench(label, fn, iters, warmup)` in
src/old-version-compare.js lines 35-53: warmup `timeOne` calls consume clock
indices `0 .. warmup-1`, measured iteration `i` stores the duration of clock
index `warmup + i`; statistics as in the new version (the occasional
`global.gc()` at line 363 of the old file has no observable effect in the
model). -/
def runBenchOld (time : Nat → ℚ) (warmup iters : Nat) : ResultOld :=
  let samples := (List.range iters).map (fun i => time (warmup + i))
  ⟨samples, minList samples, median samples, meanList samples, maxList samples⟩

/-- Model of one destructuring swap `[a[i], a[j]] = [a[j], a[i]]`
(src/index.js line 33): the right-hand side is evaluated first, so
position `i` receives the old `a[j]` and position `j` the old `a[i]`.
In the source both indices are always in range; the out-of-range branch
(identity) is unreachable under the `jIndex` bound proved below. -/
def listSwap {α : Type} (l : List α) (i j : Nat) : List α :=
  if h : i < l.length ∧ j < l.length then
    (l.set i (l.get ⟨j, h.2⟩)).set j (l.get ⟨i, h.1⟩)
  else l

/-- Model of `Math.floor(Math.random() * (i + 1))` (src/index.js line 32),
where `r` is the `Math.random()` draw of this loop iteration. -/
def jIndex (r : ℚ) (i : Nat) : Nat :=
  (⌊r * ((i : ℚ) + 1)⌋).toNat

/-- The descending loop of `shuffle` (src/index.js lines 31-34):
`for (let i = a.length - 1; i > 0; i--)` swaps position `i` with position
`jIndex (rand i) i`; `rand i` is the `Math.random()` draw consumed at loop
index `i`. -/
def shuffleGo {α : Type} (rand : Nat → ℚ) : Nat → List α → List α
  | 0, a => a
  | i + 1, a => shuffleGo rand i (listSwap a (i + 1) (jIndex (rand (i + 1)) (i + 1)))

/-- Model of `shuffle(arr)` (src/index.js lines 29-36): copy the argument
(`arr.slice()`) and run the swap loop from index `a.length - 1` down to 1 on
the copy. -/
def shuffle {α : Type} (arr : List α) (rand : Nat → ℚ) : List α :=
  shuffleGo rand (arr.length - 1) arr

/-- The two JavaScript array objects alive inside a `shuffle(arr)` call:
the caller's array `arr` and the fresh copy `a = arr.slice()`
(src/index.js line 30).  Each cell holds the array's element contents. -/
structure ShuffleEnv (α : Type) where
  arr : List α
  a : List α
deriving Repr

/-- One iteration of the shuffle loop acting on the environment: the
destructuring assignment on line 33 writes only the `a` cell, never `arr`. -/
def shuffleStepEnv {α : Type} (rand : Nat → ℚ) (i : Nat) (env : ShuffleEnv α) :
    ShuffleEnv α :=
  ⟨env.arr, listSwap env.a i (jIndex (rand i) i)⟩

/-- The shuffle loop on the two-cell environment, from index `i` down to 1. -/
def shuffleLoopEnv {α : Type} (rand : Nat → ℚ) : Nat → ShuffleEnv α → ShuffleEnv α
  | 0, env => env
  | i + 1, env => shuffleLoopEnv rand i (shuffleStepEnv rand (i + 1) env)

/-- Whole-call model of `shuffle(arr)` at the environment level: start from
`⟨arr, arr.slice()⟩` (the copy has the same contents), run the loop, return
the final environment together with the returned array `a` (line 35). -/
def shuffleRun {α : Type} (arr : List α) (rand : Nat → ℚ) :
    ShuffleEnv α × List α :=
  let env := shuffleLoopEnv rand (arr.length - 1) ⟨arr, arr⟩
  (env, env.a)

/-- The steps a timed thunk performs, used to model which work happens
inside the timed region of `timeOne` (src/index.js lines 42-47). -/
inductive Act where
  | cloneDeep
  | contenderRun
deriving DecidableEq, Repr

/-- Cost semantics of `timeOne(fn)` (src/index.js lines 42-47): `t1 = hrNow()`
is read, `fn()` runs to completion, `t2 = hrNow()` is read, and the returned
duration is the time spent between the two reads — the total cost of every
step `fn` performs.  A thunk is the list of steps it performs, each tagged
with its cost. -/
def timeOne (fn : List (Act × ℚ)) : ℚ :=
  (fn.map Prod.snd).sum

/-- The thunk `() => run(_.cloneDeep(objToClean))` passed to `runBench` for a
contender (src/index.js line 157): calling it first deep-clones the fixture,
then runs the contender on the clone — both steps happen inside the thunk,
hence inside `timeOne`'s timed region.  `cloneCost` is the cost of
`_.cloneDeep(objToClean)` and `opCost` the cost of `run(...)` on the clone. -/
def measuredThunk (cloneCost opCost : ℚ) : List (Act × ℚ) :=
  [(Act.cloneDeep, cloneCost), (Act.contenderRun, opCost)]

/-- The baseline thunk `() => _.cloneDeep(objToClean)` (src/index.js
line 152), measured separately as the clone-only contender. -/
def cloneOnlyThunk (cloneCost : ℚ) : List (Act × ℚ) :=
  [(Act.cloneDeep, cloneCost)]

/-- One row of `perFileResults[..].rows` (src/index.js lines 187-193). -/
structure Row where
  name : String
  mean : ℚ
  peakHeap : Int
  avgHeapDelta : ℚ
  peakRSS : Int
deriving DecidableEq, Repr

/-- One entry of `perFileResults` (src/index.js lines 185-195): the rows of
one benchmarked file plus the name of its per-file winner. -/
structure PerFile where
  file : String
  rows : List Row
  winner : String
deriving DecidableEq, Repr

/-- The per-contender accumulator of the overall summary
(src/index.js lines 263-265). -/
structure Agg where
  timeSum : ℚ
  heapPeakMax : Int
  heapDeltaSum : ℚ
  rssPeakMax : Int
deriving DecidableEq, Repr

/-- All rows carrying a given contender name, in file order (the doubly
nested loop of src/index.js lines 268-275 updates `agg[row.name]` once per
such row). -/
def rowsFor (name : String) (files : List PerFile) : List Row :=
  ((files.map PerFile.rows).flatten).filter (fun r => r.name == name)

/-- The accumulated `agg[name]` after the loop of src/index.js lines 268-275:
sum of the per-file means, running max of the peak heaps, sum of the per-file
average heap deltas, running max of the peak RSS values, starting from the
all-zero initialisation of lines 263-265. -/
def aggFor (name : String) (files : List PerFile) : Agg :=
  (rowsFor name files).foldl
    (fun a row =>
      ⟨a.timeSum + row.mean, max a.heapPeakMax row.peakHeap,
       a.heapDeltaSum + row.avgHeapDelta, max a.rssPeakMax row.peakRSS⟩)
    ⟨0, 0, 0, 0⟩

/-- The accumulated `winCounts[name]` (src/index.js lines 266, 276): the
number of processed files whose per-file winner is `name`. -/
def winCount (name : String) (files : List PerFile) : Nat :=
  (files.filter (fun f => f.winner == name)).length

/-- One overall-summary row (src/index.js lines 279-291), keeping the exact
rational `avgOfMeans = agg[name].timeSum / perFileResults.length` alongside
the other aggregates.  The printed row stores `fmtMs(avgOfMeans)`, a string;
the sort key derived from it is modelled by `fix3` below. -/
structure OverallRow where
  name : String
  avgOfMeans : ℚ
  wins : Nat
  heapPeakMax : Int
  avgHeapDelta : ℚ
  rssPeakMax : Int
deriving DecidableEq, Repr

/-- Model of the round trip `Number(fmtMs(q).replace(' ms', ''))`
(src/index.js lines 285, 293-295): `fmtMs` renders `q.toFixed(3)`, i.e.
rounds to the nearest thousandth, and `Number` parses the 3-decimal string
back.  Modelled as rounding to the nearest multiple of `1/1000` (Lean's
`round` resolves exact halves upward; JavaScript resolves them by the
underlying binary double — every concrete value used below is far from a
half-tie, where the two agree). -/
def fix3 (q : ℚ) : ℚ :=
  ((round (q * 1000) : Int) : ℚ) / 1000

/-- The comparator of src/index.js lines 292-296: ascending by the parsed
3-decimal rendering of the overall mean. -/
def rowLe (x y : OverallRow) : Prop :=
  fix3 x.avgOfMeans ≤ fix3 y.avgOfMeans

instance : DecidableRel rowLe := fun x y =>
  inferInstanceAs (Decidable (fix3 x.avgOfMeans ≤ fix3 y.avgOfMeans))

instance : IsTotal OverallRow rowLe :=
  ⟨fun x y => le_total (fix3 x.avgOfMeans) (fix3 y.avgOfMeans)⟩

instance : IsTrans OverallRow rowLe :=
  ⟨fun _ _ _ h₁ h₂ => le_trans h₁ h₂⟩

/-- The overall rows before sorting (src/index.js lines 279-291), one per
registered cleaner name in registration order. -/
def overallRowsUnsorted (names : List String) (files : List PerFile) :
    List OverallRow :=
  names.map (fun name =>
    let a := aggFor name files
    ⟨name, a.timeSum / (files.length : ℚ), winCount name files,
     a.heapPeakMax, a.heapDeltaSum / (files.length : ℚ), a.rssPeakMax⟩)

/-- Model of `overallRows` (src/index.js lines 279-296): the unsorted rows
sorted by the comparator `rowLe`.  The ECMAScript `Array.prototype.sort` is
stable and `List.insertionSort` is the stable ascending sort, so the two
agree on ties. -/
def overallRows (names : List String) (files : List PerFile) :
    List OverallRow :=
  List.insertionSort rowLe (overallRowsUnsorted names files)

/-- Model of `winnerOverall = overallRows[0]` (src/index.js line 301); the
default row models the `undefined` JavaScript would produce on an empty
summary, which no theorem below reaches. -/
def winnerOverall (names : List String) (files : List PerFile) : OverallRow :=
  (overallRows names files).headD ⟨"", 0, 0, 0, 0, 0⟩

/-- The maximum of a non-empty list of memory snapshot values: this states
the spec's "max across iterations" side of claim C7 and is deliberately
written from the spec's words, to be compared against the `peakHeap` and
`peakRSS` the code computes (junk value `0` on the empty list, which no
theorem reaches). -/
def maxIntList : List Int → Int
  | [] => 0
  | x :: xs => xs.foldl max x

/-! ## Helper lemmas about the sample statistics -/

theorem foldl_min_le_init (l : List ℚ) : ∀ b : ℚ, l.foldl min b ≤ b := by
  induction l with
  | nil => intro b; simp
  | cons x xs ih => intro b; exact le_trans (ih (min b x)) (min_le_left b x)

theorem foldl_min_le_of_mem {x : ℚ} (l : List ℚ) (b : ℚ) (hx : x ∈ l) :
    l.foldl min b ≤ x := by
  induction l generalizing b with
  | nil => cases hx
  | cons y ys ih =>
    rcases List.mem_cons.mp hx with h | h
    · subst h; exact le_trans (foldl_min_le_init ys (min b x)) (min_le_right b x)
    · exact ih (min b y) h

theorem init_le_foldl_max (l : List ℚ) : ∀ b : ℚ, b ≤ l.foldl max b := by
  induction l with
  | nil => intro b; simp
  | cons x xs ih => intro b; exact le_trans (le_max_left b x) (ih (max b x))

theorem mem_le_foldl_max {x : ℚ} (l : List ℚ) (b : ℚ) (hx : x ∈ l) :
    x ≤ l.foldl max b := by
  induction l generalizing b with
  | nil => cases hx
  | cons y ys ih =>
    rcases List.mem_cons.mp hx with h | h
    · subst h; exact le_trans (le_max_right b x) (init_le_foldl_max ys (max b x))
    · exact ih (max b y) h

theorem minList_le_of_mem {l : List ℚ} {x : ℚ} (hx : x ∈ l) : minList l ≤ x := by
  cases l with
  | nil => cases hx
  | cons y ys =>
    rcases List.mem_cons.mp hx with h | h
    · subst h; exact foldl_min_le_init ys x
    · exact foldl_min_le_of_mem ys y h

theorem le_maxList_of_mem {l : List ℚ} {x : ℚ} (hx : x ∈ l) : x ≤ maxList l := by
  cases l with
  | nil => cases hx
  | cons y ys =>
    rcases List.mem_cons.mp hx with h | h
    · subst h; exact init_le_foldl_max ys x
    · exact mem_le_foldl_max ys y h

theorem minList_le_meanList (l : List ℚ) (h : l ≠ []) : minList l ≤ meanList l := by
  have hpos : (0 : ℚ) < (l.length : ℚ) := by
    have := List.length_pos.mpr h
    exact_mod_cast this
  rw [meanList, le_div_iff₀ hpos]
  have hb := List.card_nsmul_le_sum l (minList l) (fun x hx => minList_le_of_mem hx)
  rwa [nsmul_eq_mul, mul_comm] at hb

theorem meanList_le_maxList (l : List ℚ) (h : l ≠ []) : meanList l ≤ maxList l := by
  have hpos : (0 : ℚ) < (l.length : ℚ) := by
    have := List.length_pos.mpr h
    exact_mod_cast this
  rw [meanList, div_le_iff₀ hpos]
  have hb := List.sum_le_card_nsmul l (maxList l) (fun x hx => le_maxList_of_mem hx)
  rwa [nsmul_eq_mul, mul_comm] at hb

theorem mid_avg_bounds (l s : List ℚ) (hperm : List.Perm s l) (h : l ≠ []) :
    minList l ≤ (if s.length % 2 = 1 then s.getD (s.length / 2) 0
      else (s.getD (s.length / 2 - 1) 0 + s.getD (s.length / 2) 0) / 2) ∧
    (if s.length % 2 = 1 then s.getD (s.length / 2) 0
      else (s.getD (s.length / 2 - 1) 0 + s.getD (s.length / 2) 0) / 2) ≤ maxList l := by
  have hlen : s.length = l.length := hperm.length_eq
  have hpos : 0 < l.length := List.length_pos.mpr h
  have hmem : ∀ i, ∀ hi : i < s.length,
      minList l ≤ s.getD i 0 ∧ s.getD i 0 ≤ maxList l := by
    intro i hi
    rw [List.getD_eq_getElem s 0 hi]
    have hm : s[i] ∈ l := hperm.mem_iff.mp (List.getElem_mem hi)
    exact ⟨minList_le_of_mem hm, le_maxList_of_mem hm⟩
  by_cases hodd : s.length % 2 = 1
  · have hmid : s.length / 2 < s.length := by omega
    rcases hmem _ hmid with ⟨h₁, h₂⟩
    rw [if_pos hodd]
    exact ⟨h₁, h₂⟩
  · have h2 : 2 ≤ s.length := by omega
    have hmid : s.length / 2 < s.length := by omega
    have hmid1 : s.length / 2 - 1 < s.length := by omega
    rcases hmem _ hmid with ⟨h₁, h₂⟩
    rcases hmem _ hmid1 with ⟨h₃, h₄⟩
    rw [if_neg hodd]
    constructor
    · linarith
    · linarith

theorem median_bounds (l : List ℚ) (h : l ≠ []) :
    minList l ≤ median l ∧ median l ≤ maxList l :=
  mid_avg_bounds l (List.insertionSort (fun x y : ℚ => x ≤ y) l)
    (List.perm_insertionSort _ l) h

/-- C1: for every non-empty sequence of duration samples the statistics in
the `Result` returned by `runBench` satisfy `min ≤ median ≤ max` and
`min ≤ mean ≤ max`; this holds for every clock and memory oracle, every
warmup count and every positive measured-iteration count. -/
theorem runBench_stats_ordered (time : Nat → ℚ) (mem : Nat → Mem) (w iters : Nat)
    (h : 1 ≤ iters) :
    (runBench time mem w iters).min ≤ (runBench time mem w iters).median ∧
    (runBench time mem w iters).median ≤ (runBench time mem w iters).max ∧
    (runBench time mem w iters).min ≤ (runBench time mem w iters).mean ∧
    (runBench time mem w iters).mean ≤ (runBench time mem w iters).max := by
  have hne : (List.range iters).map (fun i => time (w + i)) ≠ [] := by
    intro hc
    have hlc := congrArg List.length hc
    simp at hlc
    omega
  have h₁ := median_bounds _ hne
  have h₂ := minList_le_meanList _ hne
  have h₃ := meanList_le_maxList _ hne
  exact ⟨h₁.1, h₁.2, h₂, h₃⟩

/-- Witness for C1 at a concrete clock, memory oracle and iteration count. -/
theorem runBench_stats_ordered_witness :
    (runBench (fun _ => 1) (fun _ => ⟨0, 0⟩) 0 3).min ≤
      (runBench (fun _ => 1) (fun _ => ⟨0, 0⟩) 0 3).median ∧
    (runBench (fun _ => 1) (fun _ => ⟨0, 0⟩) 0 3).median ≤
      (runBench (fun _ => 1) (fun _ => ⟨0, 0⟩) 0 3).max ∧
    (runBench (fun _ => 1) (fun _ => ⟨0, 0⟩) 0 3).min ≤
      (runBench (fun _ => 1) (fun _ => ⟨0, 0⟩) 0 3).mean ∧
    (runBench (fun _ => 1) (fun _ => ⟨0, 0⟩) 0 3).mean ≤
      (runBench (fun _ => 1) (fun _ => ⟨0, 0⟩) 0 3).max :=
  runBench_stats_ordered (fun _ => 1) (fun _ => ⟨0, 0⟩) 0 3 (by norm_num)

/-- C2: `median` implements the standard even/odd-count rule on a sorted
copy of its input — the copy produced by the ascending sort is sorted and a
permutation of the input; an odd-length input yields the single central
value of that sorted copy, an even-length input the average of its two
central values; in particular `median [1,2,3] = 2` and
`median [1,2,3,4] = 2.5`. -/
theorem median_even_odd_rule (l : List ℚ) :
    List.Sorted (fun x y : ℚ => x ≤ y) (List.insertionSort (fun x y : ℚ => x ≤ y) l) ∧
    List.Perm (List.insertionSort (fun x y : ℚ => x ≤ y) l) l ∧
    (l.length % 2 = 1 →
      median l = (List.insertionSort (fun x y : ℚ => x ≤ y) l).getD (l.length / 2) 0) ∧
    (l.length % 2 = 0 → l ≠ [] →
      median l =
        ((List.insertionSort (fun x y : ℚ => x ≤ y) l).getD (l.length / 2 - 1) 0 +
          (List.insertionSort (fun x y : ℚ => x ≤ y) l).getD (l.length / 2) 0) / 2) ∧
    median [1, 2, 3] = 2 ∧ median [1, 2, 3, 4] = 5 / 2 := by
  have hperm := List.perm_insertionSort (fun x y : ℚ => x ≤ y) l
  have hlen : (List.insertionSort (fun x y : ℚ => x ≤ y) l).length = l.length :=
    hperm.length_eq
  have hm : median l =
      if (List.insertionSort (fun x y : ℚ => x ≤ y) l).length % 2 = 1 then
        (List.insertionSort (fun x y : ℚ => x ≤ y) l).getD
          ((List.insertionSort (fun x y : ℚ => x ≤ y) l).length / 2) 0
      else
        ((List.insertionSort (fun x y : ℚ => x ≤ y) l).getD
            ((List.insertionSort (fun x y : ℚ => x ≤ y) l).length / 2 - 1) 0 +
          (List.insertionSort (fun x y : ℚ => x ≤ y) l).getD
            ((List.insertionSort (fun x y : ℚ => x ≤ y) l).length / 2) 0) / 2 := rfl
  refine ⟨List.sorted_insertionSort _ l, hperm, ?_, ?_, ?_, ?_⟩
  · intro hodd
    rw [hm, hlen, if_pos hodd]
  · intro heven _
    rw [hm, hlen, if_neg (by omega)]
  · simp [median, List.insertionSort, List.orderedInsert]
  · simp [median, List.insertionSort, List.orderedInsert]
    norm_num

/-- Witness for C2: the odd rule applied to a concrete 5-element list and
the even rule applied to a concrete 4-element list. -/
theorem median_even_odd_rule_witness :
    median [(5 : ℚ), 1, 4, 2, 3] =
      (List.insertionSort (fun x y : ℚ => x ≤ y) [(5 : ℚ), 1, 4, 2, 3]).getD 2 0 ∧
    median [(4 : ℚ), 3, 2, 1] =
      ((List.insertionSort (fun x y : ℚ => x ≤ y) [(4 : ℚ), 3, 2, 1]).getD 1 0 +
        (List.insertionSort (fun x y : ℚ => x ≤ y) [(4 : ℚ), 3, 2, 1]).getD 2 0) / 2 :=
  ⟨(median_even_odd_rule [(5 : ℚ), 1, 4, 2, 3]).2.2.1 (by decide),
   (median_even_odd_rule [(4 : ℚ), 3, 2, 1]).2.2.2.1 (by decide) (by simp)⟩

/-- C3: for every clock and memory oracle, every warmup count and every
measured-iteration count, `runBench` (in both files) returns a `Result`
whose `samples` has length exactly `iters`; the length does not depend on
the warmup count, and for `iters ≥ 1` the samples are never empty. -/
theorem runBench_sample_count (time : Nat → ℚ) (mem : Nat → Mem) (w w₂ iters : Nat) :
    (runBench time mem w iters).samples.length = iters ∧
    (runBenchOld time w iters).samples.length = iters ∧
    (runBench time mem w iters).samples.length =
      (runBench time mem w₂ iters).samples.length ∧
    (1 ≤ iters → (runBench time mem w iters).samples ≠ []) := by
  refine ⟨by simp [runBench], by simp [runBenchOld], by simp [runBench], ?_⟩
  intro h hc
  have hlc := congrArg List.length hc
  simp [runBench] at hlc
  omega

/-- Witness for C3 at a concrete clock, memory oracle, warmup 0 and 5
measured iterations. -/
theorem runBench_sample_count_witness :
    (runBench (fun _ => 0) (fun _ => ⟨0, 0⟩) 0 5).samples.length = 5 ∧
    (runBench (fun _ => 0) (fun _ => ⟨0, 0⟩) 0 5).samples ≠ [] :=
  ⟨(runBench_sample_count (fun _ => 0) (fun _ => ⟨0, 0⟩) 0 3 5).1,
   (runBench_sample_count (fun _ => 0) (fun _ => ⟨0, 0⟩) 0 3 5).2.2.2 (by norm_num)⟩

/-- C4: every recorded per-iteration heap delta is clamped to be
non-negative — even when the "after" snapshot is below the "before" one —
and consequently `avgHeapDelta ≥ 0` in every `Result` `runBench` returns. -/
theorem heap_deltas_nonneg (time : Nat → ℚ) (mem : Nat → Mem) (w iters : Nat) :
    (∀ d ∈ heapDeltas mem iters, 0 ≤ d) ∧
    0 ≤ (runBench time mem w iters).avgHeapDelta := by
  have hd : ∀ d ∈ heapDeltas mem iters, (0 : Int) ≤ d := by
    intro d hd
    simp only [heapDeltas, List.mem_map] at hd
    obtain ⟨i, _, hi⟩ := hd
    rw [← hi]
    exact le_max_left _ _
  refine ⟨hd, ?_⟩
  show (0 : ℚ) ≤ ((heapDeltas mem iters).map (Int.cast : Int → ℚ)).sum /
    ((heapDeltas mem iters).length : ℚ)
  apply div_nonneg
  · apply List.sum_nonneg
    intro x hx
    simp only [List.mem_map] at hx
    obtain ⟨d, hdm, rfl⟩ := hx
    exact_mod_cast hd d hdm
  · exact Nat.cast_nonneg _

/-- Witness for C4: a memory oracle where the iteration's heap grows by 1
byte; the recorded delta 1 is non-negative, as is the average delta. -/
theorem heap_deltas_nonneg_witness :
    (0 : Int) ≤ 1 ∧
    0 ≤ (runBench (fun _ => 0) (fun n => ⟨(n : Int), (n : Int)⟩) 0 1).avgHeapDelta :=
  ⟨(heap_deltas_nonneg (fun _ => 0) (fun n => ⟨(n : Int), (n : Int)⟩) 0 1).1 1
      (by simp [heapDeltas, postHeap, preHeap]),
   (heap_deltas_nonneg (fun _ => 0) (fun n => ⟨(n : Int), (n : Int)⟩) 0 1).2⟩

/-- C5 counterexample: with contenders registered as A then B and a single
fixture on which A's mean is 1.0004 ms and B's is 0.9996 ms, B has the
strictly lowest meanOfMeans (and is the per-fixture winner, so also the
highest win count), yet the overall winner is A: both means render as
"1.000 ms", the parsed sort keys tie, and the stable sort keeps
registration order. -/
theorem overall_winner_counterexample :
    (winnerOverall ["A", "B"]
        [⟨"f", [⟨"A", 10004 / 10000, 0, 0, 0⟩, ⟨"B", 9996 / 10000, 0, 0, 0⟩], "B"⟩]).name
      = "A" ∧
    (overallRowsUnsorted ["A", "B"]
        [⟨"f", [⟨"A", 10004 / 10000, 0, 0, 0⟩, ⟨"B", 9996 / 10000, 0, 0, 0⟩], "B"⟩]).map
        (fun r => (r.name, r.avgOfMeans, r.wins))
      = [("A", 10004 / 10000, 0), ("B", 9996 / 10000, 1)] ∧
    (9996 / 10000 : ℚ) < 10004 / 10000 := by
  refine ⟨?_, ?_, by norm_num⟩
  · simp [winnerOverall, overallRows, overallRowsUnsorted, aggFor, rowsFor, winCount,
      List.insertionSort, List.orderedInsert, rowLe, fix3]
    norm_num [round_eq]
  · simp [overallRowsUnsorted, aggFor, rowsFor, winCount]

/-- C5 amended: the overall ranking is the stable ascending sort of the
per-contender rows by the parsed three-decimal rendering of meanOfMeans
(`fix3`), so it is sorted by that rounded key and is a permutation of the
registration-ordered rows; the overall winner (the first ranked row) has a
minimal rounded key — but not necessarily the minimal exact meanOfMeans,
as rows whose rendered means tie keep registration order. -/
theorem overall_ranking_amended (names : List String) (files : List PerFile) :
    List.Sorted rowLe (overallRows names files) ∧
    List.Perm (overallRows names files) (overallRowsUnsorted names files) ∧
    (names ≠ [] → ∀ r ∈ overallRows names files, rowLe (winnerOverall names files) r) := by
  have hsorted : List.Sorted rowLe (overallRows names files) :=
    List.sorted_insertionSort rowLe _
  have hperm : List.Perm (overallRows names files) (overallRowsUnsorted names files) :=
    List.perm_insertionSort rowLe _
  refine ⟨hsorted, hperm, ?_⟩
  intro hne r hr
  have hlen : (overallRows names files).length = names.length := by
    rw [hperm.length_eq]
    simp [overallRowsUnsorted]
  cases hrows : overallRows names files with
  | nil =>
    exfalso
    rw [hrows] at hlen
    have := List.length_pos.mpr hne
    simp at hlen
    omega
  | cons w rest =>
    rw [hrows] at hr hsorted
    have hw : winnerOverall names files = w := by
      simp [winnerOverall, hrows]
    rw [hw]
    rcases List.mem_cons.mp hr with h | h
    · rw [h]
      exact le_refl _
    · exact List.rel_of_sorted_cons hsorted r h

/-- Witness for C5's amended theorem at a concrete two-contender summary:
the winner's rounded key is at most the second row's. -/
theorem overall_ranking_amended_witness :
    rowLe (winnerOverall ["X", "Y"] []) ⟨"Y", 0, 0, 0, 0, 0⟩ :=
  (overall_ranking_amended ["X", "Y"] []).2.2 (by simp) ⟨"Y", 0, 0, 0, 0, 0⟩
    (by simp [overallRows, overallRowsUnsorted, aggFor, rowsFor, winCount,
      List.insertionSort, List.orderedInsert, rowLe, fix3])

/-- C6 counterexample: with clone cost 1 ms and operation cost 2 ms, the
thunk `() => run(_.cloneDeep(objToClean))` takes 3 ms inside `timeOne`'s
timed region — not the 2 ms the claim predicts — because the per-iteration
deep clone happens inside the timed thunk. -/
theorem timed_region_counterexample :
    timeOne (measuredThunk 1 2) = 3 ∧ timeOne (measuredThunk 1 2) ≠ 2 := by
  constructor
  · norm_num [timeOne, measuredThunk]
  · norm_num [timeOne, measuredThunk]

/-- C6 amended: each measured duration sample covers the per-iteration deep
clone plus the contender's operation, because the clone is produced inside
the timed region; the harness instead measures a clone-only baseline
separately, whose subtraction recovers the operation cost. -/
theorem timed_region_amended (cloneCost opCost : ℚ) :
    timeOne (measuredThunk cloneCost opCost) = cloneCost + opCost ∧
    timeOne (cloneOnlyThunk cloneCost) = cloneCost ∧
    timeOne (measuredThunk cloneCost opCost) - timeOne (cloneOnlyThunk cloneCost)
      = opCost := by
  refine ⟨?_, ?_, ?_⟩
  · simp [timeOne, measuredThunk]
  · simp [timeOne, cloneOnlyThunk]
  · simp [timeOne, measuredThunk, cloneOnlyThunk]

theorem foldl_max_shift (xs : List Int) :
    ∀ b x : Int, xs.foldl max (max b x) = max b (xs.foldl max x) := by
  induction xs with
  | nil => intro b x; rfl
  | cons y ys ih =>
    intro b x
    show ys.foldl max (max (max b x) y) = max b (ys.foldl max (max x y))
    rw [max_assoc, ih]

theorem foldl_max_of_ne_nil (l : List Int) (b : Int) (h : l ≠ []) :
    l.foldl max b = max b (maxIntList l) := by
  cases l with
  | nil => contradiction
  | cons x xs =>
    show xs.foldl max (max b x) = max b (maxIntList (x :: xs))
    rw [foldl_max_shift]
    rfl

/-- C7 counterexample: a memory oracle whose initial snapshot reports heap
100 while every snapshot inside the measured loop reports heap 50.  With
one measured iteration the maximum of the "after" heap snapshots is 50, but
`runBench` reports `peakHeap = 100`: the pre-loop baseline snapshot
contributes to the maximum. -/
theorem peak_heap_counterexample :
    (runBench (fun _ => 0)
        (fun n => if n = 0 then ⟨100, 0⟩ else if n = 1 then ⟨0, 100⟩ else ⟨50, 50⟩)
        0 1).peakHeap = 100 ∧
    maxIntList (afterHeaps
        (fun n => if n = 0 then ⟨100, 0⟩ else if n = 1 then ⟨0, 100⟩ else ⟨50, 50⟩)
        1) = 50 ∧
    (100 : Int) ≠ 50 := by
  refine ⟨?_, ?_, by norm_num⟩ <;>
    simp [runBench, afterHeaps, afterRsss, heapDeltas, maxIntList, postHeap,
      List.range_succ]

/-- C7 amended: for at least one measured iteration, `peakHeap` equals the
maximum of the pre-loop baseline heap snapshot (snapshot index 0) and the
"after" heap snapshots of the measured iterations, and `peakRSS` equals the
maximum of the baseline RSS snapshot (snapshot index 1) and the "after" RSS
snapshots; the "before" snapshots do not contribute. -/
theorem peak_includes_baseline (time : Nat → ℚ) (mem : Nat → Mem) (w iters : Nat)
    (h : 1 ≤ iters) :
    (runBench time mem w iters).peakHeap
      = max (mem 0).heapUsed (maxIntList (afterHeaps mem iters)) ∧
    (runBench time mem w iters).peakRSS
      = max (mem 1).rss (maxIntList (afterRsss mem iters)) := by
  have h1 : afterHeaps mem iters ≠ [] := by
    simp [afterHeaps]
    omega
  have h2 : afterRsss mem iters ≠ [] := by
    simp [afterRsss]
    omega
  constructor
  · show (afterHeaps mem iters).foldl max (mem 0).heapUsed = _
    exact foldl_max_of_ne_nil _ _ h1
  · show (afterRsss mem iters).foldl max (mem 1).rss = _
    exact foldl_max_of_ne_nil _ _ h2

/-- Witness for C7's amended theorem at a concrete memory oracle and one
measured iteration. -/
theorem peak_includes_baseline_witness :
    (runBench (fun _ => 0) (fun n => ⟨(n : Int), (n : Int)⟩) 0 1).peakHeap
      = max ((fun n => (⟨(n : Int), (n : Int)⟩ : Mem)) 0).heapUsed
          (maxIntList (afterHeaps (fun n => ⟨(n : Int), (n : Int)⟩) 1)) ∧
    (runBench (fun _ => 0) (fun n => ⟨(n : Int), (n : Int)⟩) 0 1).peakRSS
      = max ((fun n => (⟨(n : Int), (n : Int)⟩ : Mem)) 1).rss
          (maxIntList (afterRsss (fun n => ⟨(n : Int), (n : Int)⟩) 1)) :=
  peak_includes_baseline (fun _ => 0) (fun n => ⟨(n : Int), (n : Int)⟩) 0 1 (by norm_num)

/-- C8 counterexample: invoked with zero measured iterations, `runBench`
does not fail fast — it returns a `Result` whose samples sequence is empty
(the JavaScript statistics on it are degenerate: `NaN` mean/median,
infinite min/max), in both files. -/
theorem zero_iters_counterexample :
    (runBench (fun _ => 0) (fun _ => ⟨0, 0⟩) 1 0).samples = [] ∧
    (runBenchOld (fun _ => 0) 1 0).samples = [] := by
  constructor <;> rfl

/-- C8 amended: a measured-iteration count of zero is not validated: for
every clock, memory oracle and warmup count, `runBench` (in both files)
performs no measurement and returns a `Result` with an empty samples
sequence instead of surfacing a configuration error. -/
theorem zero_iters_amended (time : Nat → ℚ) (mem : Nat → Mem) (w : Nat) :
    (runBench time mem w 0).samples = [] ∧ (runBenchOld time w 0).samples = [] := by
  constructor <;> rfl

theorem jIndex_le (r : ℚ) (i : Nat) (_h0 : 0 ≤ r) (h1 : r < 1) : jIndex r i ≤ i := by
  unfold jIndex
  have hpos : (0 : ℚ) < (i : ℚ) + 1 := by positivity
  have hlt : r * ((i : ℚ) + 1) < (i : ℚ) + 1 := by nlinarith
  have hfl : ⌊r * ((i : ℚ) + 1)⌋ < (i : Int) + 1 := by
    apply Int.floor_lt.mpr
    push_cast
    exact hlt
  omega

theorem count_set {α : Type} [DecidableEq α] (d : α) :
    ∀ (l : List α) (i : Nat), i < l.length → ∀ b z : α,
      (l.set i b).count z + (if l.getD i d = z then 1 else 0)
        = l.count z + (if b = z then 1 else 0) := by
  intro l
  induction l with
  | nil => intro i h; simp at h
  | cons x xs ih =>
    intro i h b z
    cases i with
    | zero =>
      simp only [List.set_cons_zero, List.count_cons, List.getD_cons_zero, beq_iff_eq]
      split_ifs <;> omega
    | succ n =>
      have hn : n < xs.length := by simpa using h
      have hx := ih n hn b z
      simp only [List.set_cons_succ, List.count_cons, List.getD_cons_succ, beq_iff_eq]
      split_ifs at hx ⊢ <;> omega

theorem listSwap_count {α : Type} [DecidableEq α] (l : List α) (i j : Nat) (z : α) :
    (listSwap l i j).count z = l.count z := by
  unfold listSwap
  split_ifs with h
  · obtain ⟨hi, hj⟩ := h
    have hj2 : j < (l.set i (l.get ⟨j, hj⟩)).length := by simpa using hj
    have e1 := count_set (l.get ⟨i, hi⟩) (l.set i (l.get ⟨j, hj⟩)) j hj2
      (l.get ⟨i, hi⟩) z
    have e2 := count_set (l.get ⟨i, hi⟩) l i hi (l.get ⟨j, hj⟩) z
    have hgj : (l.set i (l.get ⟨j, hj⟩)).getD j (l.get ⟨i, hi⟩) = l.get ⟨j, hj⟩ := by
      rw [List.getD_eq_getElem _ _ hj2]
      by_cases hij : i = j
      · subst hij
        exact List.getElem_set_self _
      · rw [List.getElem_set_ne hij]
        rfl
    have hgi : l.getD i (l.get ⟨i, hi⟩) = l.get ⟨i, hi⟩ := by
      rw [List.getD_eq_getElem _ _ hi]
      rfl
    rw [hgj] at e1
    rw [hgi] at e2
    split_ifs at e1 e2 <;> omega
  · rfl

theorem listSwap_perm {α : Type} [DecidableEq α] (l : List α) (i j : Nat) :
    List.Perm (listSwap l i j) l :=
  List.perm_iff_count.mpr (fun z => listSwap_count l i j z)

theorem shuffleGo_perm {α : Type} [DecidableEq α] (rand : Nat → ℚ) :
    ∀ (n : Nat) (a : List α), List.Perm (shuffleGo rand n a) a := by
  intro n
  induction n with
  | zero => intro a; exact List.Perm.refl a
  | succ i ih =>
    intro a
    exact (ih _).trans (listSwap_perm a (i + 1) _)

/-- C9: for every input sequence and every sequence of `Math.random` draws
(each in `[0,1)`), `shuffle` returns a sequence containing exactly the same
elements as the input: a permutation, with the same multiset of elements
and the same length. -/
theorem shuffle_is_permutation {α : Type} [DecidableEq α] (arr : List α)
    (rand : Nat → ℚ) (_hdraws : ∀ i, 0 ≤ rand i ∧ rand i < 1) :
    List.Perm (shuffle arr rand) arr ∧
    (shuffle arr rand : Multiset α) = (arr : Multiset α) ∧
    (shuffle arr rand).length = arr.length := by
  have hp : List.Perm (shuffle arr rand) arr := shuffleGo_perm rand _ arr
  exact ⟨hp, Multiset.coe_eq_coe.mpr hp, hp.length_eq⟩

/-- Witness for C9 on a concrete 3-element list with all draws equal
to 1/2. -/
theorem shuffle_is_permutation_witness :
    List.Perm (shuffle [(1 : Nat), 2, 3] (fun _ => 1 / 2)) [1, 2, 3] ∧
    (shuffle [(1 : Nat), 2, 3] (fun _ => 1 / 2) : Multiset Nat)
      = ([1, 2, 3] : List Nat) ∧
    (shuffle [(1 : Nat), 2, 3] (fun _ => 1 / 2)).length = 3 :=
  shuffle_is_permutation [(1 : Nat), 2, 3] (fun _ => 1 / 2)
    (fun i => ⟨by norm_num, by norm_num⟩)

theorem shuffleLoopEnv_arr {α : Type} (rand : Nat → ℚ) :
    ∀ (n : Nat) (env : ShuffleEnv α), (shuffleLoopEnv rand n env).arr = env.arr := by
  intro n
  induction n with
  | zero => intro env; rfl
  | succ i ih =>
    intro env
    show (shuffleLoopEnv rand i (shuffleStepEnv rand (i + 1) env)).arr = env.arr
    rw [ih]
    rfl

theorem shuffleLoopEnv_a {α : Type} (rand : Nat → ℚ) :
    ∀ (n : Nat) (env : ShuffleEnv α),
      (shuffleLoopEnv rand n env).a = shuffleGo rand n env.a := by
  intro n
  induction n with
  | zero => intro env; rfl
  | succ i ih =>
    intro env
    show (shuffleLoopEnv rand i (shuffleStepEnv rand (i + 1) env)).a
      = shuffleGo rand (i + 1) env.a
    rw [ih]
    rfl

/-- C10: `shuffle` never mutates its argument: after the call the caller's
array cell still holds the original contents in the original order (the
permutation was built on the fresh copy `arr.slice()`, which is what the
call returns), so the registered contender list keeps its registration
order across all fixtures. -/
theorem shuffle_no_mutation {α : Type} (arr : List α) (rand : Nat → ℚ) :
    (shuffleRun arr rand).1.arr = arr ∧ (shuffleRun arr rand).2 = shuffle arr rand := by
  constructor
  · show (shuffleLoopEnv rand (arr.length - 1) ⟨arr, arr⟩).arr = arr
    rw [shuffleLoopEnv_arr]
  · show (shuffleLoopEnv rand (arr.length - 1) ⟨arr, arr⟩).a = shuffle arr rand
    rw [shuffleLoopEnv_a]
    rfl

end Bench
